import Mathlib

/-!
# Verification of the train-schedule optimizer core

Shallow embedding of the two scheduling engines of the repository
(`src/optimization/simple_optimizer.py` and
`src/optimization/demo_optimizer.py`) together with proofs settling the
specification claims about them.

Modelling conventions:
* Python `int` minute values are modelled as `Nat` (all quantities in the
  program are non-negative); `max(0, a - b)` on ints coincides with
  truncated `Nat` subtraction `a - b`, which is used where the code clamps.
* The `"HH:MM"` strings built with f-strings and parsed back by
  `time_to_minutes` are modelled by the structure `TimeStr` holding the
  hour and minute fields (the zero padding of `:02d` does not change the
  numeric content).
* Python exceptions are modelled with `Except String`; the catch-all
  `except` handlers of the code become `match` on the `Except` value.
* Python dicts keyed by platform id are modelled as association lists in
  insertion order, matching the iteration order the code relies on.
* The randomized presentation metrics (`solve_time`, the synthetic
  "improvement" comparison) are not part of any claim and are omitted
  from the result record.
* `round(x, 1)` / `round(x, 2)` float presentation rounding of the
  utilization and average-delay metrics is abstracted: utilization values
  are carried as exact rationals.
-/

/-- A train record, as in the `self.trains` dictionaries of both engines. -/
structure Train where
  id : String
  train_type : String
  priority : Nat
  duration : Nat
  preferred_time : Nat
deriving Repr, DecidableEq

/-- The numeric content of an `"HH:MM"` string. -/
structure TimeStr where
  hour : Nat
  minute : Nat
deriving Repr, DecidableEq

/-- `f"{m // 60:02d}:{m % 60:02d}"`: minutes from midnight to a time string. -/
def minutesToTimeStr (m : Nat) : TimeStr := ⟨m / 60, m % 60⟩

/-- `TrainOptimizer.time_to_minutes`: parse an `"HH:MM"` string back to
minutes from midnight (`hour * 60 + minute`). -/
def time_to_minutes (t : TimeStr) : Nat := t.hour * 60 + t.minute

/-- One entry of a produced `train_schedule` list (both engines emit the
same dictionary shape). -/
structure ScheduleEntry where
  train_id : String
  train_type : String
  priority : Nat
  scheduled_start : TimeStr
  scheduled_end : TimeStr
  platform : Nat
  delay_minutes : Nat
  duration : Nat
deriving Repr, DecidableEq

/-- Absolute scheduled start of an entry, in minutes from midnight, as
`time_to_minutes` recovers it from the formatted time. -/
def entryStart (e : ScheduleEntry) : Nat := time_to_minutes e.scheduled_start

/-- One `{"train_id": ..., "start": ..., "end": ...}` record of a
`platform_allocation` value list. -/
structure AllocEntry where
  train_id : String
  start : TimeStr
  «end» : TimeStr
deriving Repr, DecidableEq

/-- The result dictionary returned by the optimization entry points.
Fields that a given code path does not populate are `none` / `[]`. -/
structure OptResult where
  status : String
  error_message : Option String
  objective_value : Option Nat
  train_schedule : List ScheduleEntry
  platform_allocation : List (Nat × List AllocEntry)
  total_delay_minutes : Nat
  on_time_trains : Nat
  delayed_trains : Nat
  platform_utilization : List (String × ℚ)
deriving Repr, DecidableEq

/-! ## Stable sort by priority

Python's `sorted(self.trains, key=lambda x: x["priority"])` is a stable
ascending sort; insertion sort below keeps an earlier input element in
front of later elements of equal priority. -/

/-- Insert a train into a priority-sorted list, after all strictly
smaller priorities and before all equal or larger ones. -/
def insertTrain (t : Train) : List Train → List Train
  | [] => [t]
  | u :: us => if u.priority < t.priority then u :: insertTrain t us else t :: u :: us

/-- `sorted(trains, key=priority)`: stable ascending sort by priority. -/
def sortTrains : List Train → List Train
  | [] => []
  | t :: ts => insertTrain t (sortTrains ts)

/-! ## The greedy heuristic engine (`SimpleTrainOptimizer`) -/

/-- `min(platform_usage.keys(), key=lambda p: platform_usage[p])` keeps the
current best and replaces it only on a strictly smaller value, so the first
occurrence of the minimum wins. -/
def minBySnd (x : Nat × Nat) : List (Nat × Nat) → Nat × Nat
  | [] => x
  | y :: rest => if y.2 < x.2 then minBySnd y rest else minBySnd x rest

/-- Python `min` over the usage dict; raises `ValueError` on an empty dict,
modelled by `none`. -/
def argminUsage : List (Nat × Nat) → Option (Nat × Nat)
  | [] => none
  | x :: rest => some (minBySnd x rest)

/-- `platform_usage[best_platform] = v`: update an association list at a key. -/
def updateUsage (l : List (Nat × Nat)) (p v : Nat) : List (Nat × Nat) :=
  l.map fun q => if q.1 = p then (q.1, v) else q

/-- Accumulator of the greedy assignment loop of
`SimpleTrainOptimizer.optimize_train_schedule`. -/
structure GreedyAcc where
  schedule : List ScheduleEntry
  usage : List (Nat × Nat)
  total_delay : Nat
deriving Repr, DecidableEq

/-- The schedule entry appended for one train of the greedy loop:
`preferred_absolute = max(time_start, preferred_time)`,
`start_time = max(preferred_absolute, platform_usage[best_platform])`,
`delay = max(0, start_time - preferred_time)`. -/
def greedyEntry (time_start : Nat) (train : Train) (best : Nat × Nat) : ScheduleEntry :=
  let start_time := max (max time_start train.preferred_time) best.2
  { train_id := train.id
    train_type := train.train_type
    priority := train.priority
    scheduled_start := minutesToTimeStr start_time
    scheduled_end := minutesToTimeStr (start_time + train.duration)
    platform := best.1
    delay_minutes := start_time - train.preferred_time
    duration := train.duration }

/-- The body of `for train in sorted_trains:` in
`SimpleTrainOptimizer.optimize_train_schedule`, iterated over the train
list.  Picks the earliest-available platform (first occurrence of the
minimum, as Python's `min`), appends the `greedyEntry` and blocks the
platform until `start_time + duration + 5`. -/
def greedyRun (time_start : Nat) : List Train → GreedyAcc → Except String GreedyAcc
  | [], acc => .ok acc
  | train :: rest, acc =>
    match argminUsage acc.usage with
    | none => .error "min() arg is an empty sequence"
    | some best =>
      let start_time := max (max time_start train.preferred_time) best.2
      greedyRun time_start rest
        ⟨acc.schedule ++ [greedyEntry time_start train best],
         updateUsage acc.usage best.1 (start_time + train.duration + 5),
         acc.total_delay + (start_time - train.preferred_time)⟩

/-- Build the `platform_allocation` dict from a schedule: keys appear in
first-use order, each value list in schedule order. -/
def addAlloc (alloc : List (Nat × List AllocEntry)) (p : Nat) (e : AllocEntry) :
    List (Nat × List AllocEntry) :=
  if alloc.any (fun q => q.1 = p) then
    alloc.map fun q => if q.1 = p then (q.1, q.2 ++ [e]) else q
  else
    alloc ++ [(p, [e])]

/-- The `platform_allocation` aggregation loop shared by both engines. -/
def buildAllocation (schedule : List ScheduleEntry) : List (Nat × List AllocEntry) :=
  schedule.foldl
    (fun alloc e =>
      addAlloc alloc e.platform ⟨e.train_id, e.scheduled_start, e.scheduled_end⟩)
    []

/-- `next(t["duration"] for t in self.trains if t["id"] == tid)`: duration of
the first train with the given id; `none` models the `StopIteration` the
generator raises when no train matches. -/
def lookupDuration (trains : List Train) (tid : String) : Option Nat :=
  (trains.find? fun t => t.id = tid).map Train.duration

/-- Total duration of the allocation entries of one platform, looked up
by train id in `trains`. -/
def sumDurations (trains : List Train) : List AllocEntry → Option Nat
  | [] => some 0
  | e :: rest =>
    match lookupDuration trains e.train_id, sumDurations trains rest with
    | some d, some s => some (d + s)
    | _, _ => none

/-- The `for platform_id, schedules in platform_allocation.items():` loop
shared by both `calculate_platform_utilization` implementations: one
`"platform_{id}" ↦ used_time / total_time * 100` entry per allocation key,
in dict order; `none` models the `StopIteration` of a failed train-id
lookup. -/
def utilEntries (trains : List Train) (total_time : Nat) :
    List (Nat × List AllocEntry) → Option (List (String × ℚ))
  | [] => some []
  | q :: rest =>
    match sumDurations trains q.2, utilEntries trains total_time rest with
    | some u, some r =>
      some ((("platform_" ++ toString q.1 : String), ((u : ℚ) / total_time) * 100) :: r)
    | _, _ => none

/-- `SimpleTrainOptimizer.calculate_platform_utilization`: used platforms
report `used_time / 480 * 100` (`total_time = 480` is a literal there);
platforms of `self.platforms` that are absent from the allocation are then
filled in with `0.0`. -/
def simple_calculate_platform_utilization (trains : List Train) (platforms : List Nat)
    (alloc : List (Nat × List AllocEntry)) : Option (List (String × ℚ)) :=
  match utilEntries trains 480 alloc with
  | none => none
  | some used =>
    some (used ++ ((platforms.filter fun p => ¬ alloc.any (fun q => q.1 = p)).map
      fun p => (("platform_" ++ toString p : String), (0 : ℚ))))

/-- The metrics part of the `try:` body of
`SimpleTrainOptimizer.optimize_train_schedule`, after the greedy loop has
produced its accumulator.  `average_delay = total / len(trains)` raises
`ZeroDivisionError` on an empty train list, modelled by the explicit
length check; a failed utilization lookup raises `StopIteration`. -/
def simpleFinish (trains : List Train) (platforms : List Nat) (acc : GreedyAcc) :
    Except String OptResult :=
  if trains.length = 0 then .error "division by zero"
  else
    match simple_calculate_platform_utilization trains platforms
        (buildAllocation acc.schedule) with
    | none => .error "StopIteration"
    | some util =>
      .ok { status := "optimal"
            error_message := none
            objective_value := some acc.total_delay
            train_schedule := acc.schedule
            platform_allocation := buildAllocation acc.schedule
            total_delay_minutes := acc.total_delay
            on_time_trains := (acc.schedule.filter fun e => e.delay_minutes = 0).length
            delayed_trains := acc.schedule.length -
              (acc.schedule.filter fun e => e.delay_minutes = 0).length
            platform_utilization := util }

/-- The `try:` body of `SimpleTrainOptimizer.optimize_train_schedule`: the
greedy loop over the priority-sorted trains, then the metrics. -/
def simpleCore (trains : List Train) (platforms : List Nat) (time_start : Nat) :
    Except String OptResult :=
  match greedyRun time_start (sortTrains trains)
      ⟨[], platforms.map (fun p => (p, time_start)), 0⟩ with
  | .error e => .error e
  | .ok acc => simpleFinish trains platforms acc

/-- `SimpleTrainOptimizer.optimize_train_schedule`: the catch-all handler
turns any exception into a `status: "error"` result with an empty
schedule. -/
def simple_optimize_train_schedule (trains : List Train) (platforms : List Nat)
    (time_start : Nat) : OptResult :=
  match simpleCore trains platforms time_start with
  | .ok r => r
  | .error e =>
      { status := "error"
        error_message := some ("Simple optimization failed: " ++ e)
        objective_value := none
        train_schedule := []
        platform_allocation := []
        total_delay_minutes := 0
        on_time_trains := 0
        delayed_trains := 0
        platform_utilization := [] }

/-- The default train set constructed in `__init__` of both optimizers. -/
def defaultTrains : List Train :=
  [⟨"T001", "Express", 1, 10, 630⟩,
   ⟨"T002", "Express", 2, 8, 675⟩,
   ⟨"T003", "Freight", 3, 15, 720⟩,
   ⟨"T004", "Passenger", 4, 12, 645⟩]

/-- The default platform set `[1, 2, 3, 4, 5, 6]`. -/
def defaultPlatforms : List Nat := [1, 2, 3, 4, 5, 6]

/-- `time_start = 360` (06:00). -/
def defaultTimeStart : Nat := 360

/-- `time_horizon = 480` (8 hours). -/
def defaultTimeHorizon : Nat := 480

/-! ## The exact engine (`TrainOptimizer`, CP-SAT model)

The CP-SAT solver itself is an external library; what the code determines
is the constraint system handed to it.  A solution accepted by
`optimize_train_schedule` (status `OPTIMAL` or `FEASIBLE`) is a valuation
of the decision variables satisfying every posted constraint;
`cpsatFeasible` below is that constraint system, transcribed clause by
clause from the model-building code. -/

/-- Values of the three decision variables of one train:
`train_start[t]`, `train_platform[t]`, `delays[t]`. -/
structure CpSol where
  start : Nat
  platform : Nat
  delay : Nat
deriving Repr, DecidableEq

/-- `preferred_relative = max(0, preferred_time - time_start)` (`Nat`
subtraction is exactly this clamp). -/
def preferredRel (time_start : Nat) (t : Train) : Nat :=
  t.preferred_time - time_start

/-- Variable domains and the two delay constraints posted per train:
`start ∈ [0, horizon - duration]`, `platform ∈ [1, len(platforms)]`,
`delay ∈ [0, horizon]`, `delay >= start - preferred_relative` and
`delay >= preferred_relative - start`. -/
def trainVarsOk (horizon time_start numPlatforms : Nat) (t : Train) (s : CpSol) : Prop :=
  s.start + t.duration ≤ horizon ∧
  1 ≤ s.platform ∧ s.platform ≤ numPlatforms ∧
  s.delay ≤ horizon ∧
  (s.start : Int) - preferredRel time_start t ≤ s.delay ∧
  (preferredRel time_start t : Int) - s.start ≤ s.delay

instance (horizon time_start numPlatforms : Nat) (t : Train) (s : CpSol) :
    Decidable (trainVarsOk horizon time_start numPlatforms t s) := by
  unfold trainVarsOk; infer_instance

/-- The pairwise platform-conflict constraints, with their auxiliary
booleans `same_platform`, `no_overlap1`, `no_overlap2`: the boolean
`same_platform` is a biconditional with platform equality, each
`no_overlapX` forces the corresponding ordering of the 5-minute buffered
end against the other start, and the clause
`no_overlap1 OR no_overlap2 OR NOT same_platform` ties them together. -/
def pairPlatformOk (t1 : Train) (s1 : CpSol) (t2 : Train) (s2 : CpSol) : Prop :=
  ∃ same_platform no_overlap1 no_overlap2 : Bool,
    (same_platform = true → s1.platform = s2.platform) ∧
    (same_platform = false → s1.platform ≠ s2.platform) ∧
    (no_overlap1 = true → s1.start + t1.duration + 5 ≤ s2.start) ∧
    (no_overlap2 = true → s2.start + t2.duration + 5 ≤ s1.start) ∧
    (no_overlap1 = true ∨ no_overlap2 = true ∨ same_platform = false)

instance (t1 : Train) (s1 : CpSol) (t2 : Train) (s2 : CpSol) :
    Decidable (pairPlatformOk t1 s1 t2 s2) := by
  unfold pairPlatformOk; infer_instance

/-- The priority-ordering constraint posted for an ordered pair with
`priority[1] < priority[2]`:
`delays[1] + priority_weight <= delays[2] + priority_weight * 2` with
`priority_weight = (priority[2] - priority[1]) * 10`. -/
def pairPriorityOk (t1 : Train) (s1 : CpSol) (t2 : Train) (s2 : CpSol) : Prop :=
  t1.priority < t2.priority →
    s1.delay + (t2.priority - t1.priority) * 10 ≤
      s2.delay + (t2.priority - t1.priority) * 10 * 2

instance (t1 : Train) (s1 : CpSol) (t2 : Train) (s2 : CpSol) :
    Decidable (pairPriorityOk t1 s1 t2 s2) := by
  unfold pairPriorityOk; infer_instance

/-- All constraints posted for one unordered pair of distinct trains
(the priority loop runs over both orders). -/
def pairOk (a b : Train × CpSol) : Prop :=
  pairPlatformOk a.1 a.2 b.1 b.2 ∧ pairPriorityOk a.1 a.2 b.1 b.2 ∧
    pairPriorityOk b.1 b.2 a.1 a.2

instance (a b : Train × CpSol) : Decidable (pairOk a b) := by
  unfold pairOk; infer_instance

/-- A valuation of the decision variables (one `CpSol` per train, in train
order) satisfies the CP-SAT model of `TrainOptimizer.optimize_train_schedule`. -/
def cpsatFeasible (trains : List Train) (platforms : List Nat)
    (horizon time_start : Nat) (sol : List CpSol) : Prop :=
  sol.length = trains.length ∧
  (∀ p ∈ trains.zip sol, trainVarsOk horizon time_start platforms.length p.1 p.2) ∧
  (trains.zip sol).Pairwise pairOk

instance (trains : List Train) (platforms : List Nat) (horizon time_start : Nat)
    (sol : List CpSol) :
    Decidable (cpsatFeasible trains platforms horizon time_start sol) := by
  unfold cpsatFeasible; infer_instance

/-- `get_priority_weight`: the fixed weight table `{1:10, 2:7, 3:4, 4:2, 5:1}`
with default 1. -/
def get_priority_weight (priority : Nat) : Nat :=
  if priority = 1 then 10
  else if priority = 2 then 7
  else if priority = 3 then 4
  else if priority = 4 then 2
  else 1

/-- One schedule entry built by `extract_solution` from the solver values of
one train: the relative start is shifted back by `time_start` and formatted. -/
def extractEntry (time_start : Nat) (t : Train) (s : CpSol) : ScheduleEntry :=
  { train_id := t.id
    train_type := t.train_type
    priority := t.priority
    scheduled_start := minutesToTimeStr (time_start + s.start)
    scheduled_end := minutesToTimeStr (time_start + s.start + t.duration)
    platform := s.platform
    delay_minutes := s.delay
    duration := t.duration }

/-- The `train_schedule` list built by `extract_solution`, iterating
`self.trains` in order. -/
def extractSchedule (time_start : Nat) (trains : List Train) (sol : List CpSol) :
    List ScheduleEntry :=
  (trains.zip sol).map fun p => extractEntry time_start p.1 p.2

/-- `TrainOptimizer.calculate_platform_utilization`: used platforms report
`used_time / time_horizon * 100`.  Unlike the heuristic engine's version,
there is no fill-in loop for unused platforms.  `none` models the
`StopIteration` of the inner `next(...)` when a train id is unknown. -/
def demo_calculate_platform_utilization (trains : List Train) (horizon : Nat)
    (alloc : List (Nat × List AllocEntry)) : Option (List (String × ℚ)) :=
  utilEntries trains horizon alloc

/-- `TrainOptimizer.extract_solution` (runs inside the `try:` of
`optimize_train_schedule`): schedule, allocation and metrics from the solver
values.  The error cases model `ZeroDivisionError` from
`average_delay = total / len(trains)` and `StopIteration` from the
utilization lookup (whose `str` is empty). -/
def extract_solution (trains : List Train) (horizon time_start : Nat)
    (sol : List CpSol) : Except String OptResult :=
  if trains.length = 0 then .error "division by zero"
  else
    match demo_calculate_platform_utilization trains horizon
        (buildAllocation (extractSchedule time_start trains sol)) with
    | none => .error ""
    | some util =>
      .ok { status := "optimal"
            error_message := none
            objective_value :=
              some (((trains.zip sol).map fun p =>
                p.2.delay * get_priority_weight p.1.priority).sum)
            train_schedule := extractSchedule time_start trains sol
            platform_allocation := buildAllocation (extractSchedule time_start trains sol)
            total_delay_minutes :=
              ((extractSchedule time_start trains sol).map ScheduleEntry.delay_minutes).sum
            on_time_trains := ((extractSchedule time_start trains sol).filter
              fun e => e.delay_minutes = 0).length
            delayed_trains := ((extractSchedule time_start trains sol).filter
              fun e => 0 < e.delay_minutes).length
            platform_utilization := util }

/-- The loop of `TrainOptimizer.get_fallback_solution`: trains in
priority-sorted order, platform `(i % len(platforms)) + 1`, starts packed
sequentially from `current_time` with a 10-minute buffer,
`delay = max(0, current_time - preferred_time)`. -/
def fallbackEntry (nplat i current : Nat) (train : Train) : ScheduleEntry :=
  { train_id := train.id
    train_type := train.train_type
    priority := train.priority
    scheduled_start := minutesToTimeStr current
    scheduled_end := minutesToTimeStr (current + train.duration)
    platform := i % nplat + 1
    delay_minutes := current - train.preferred_time
    duration := train.duration }

def fallbackLoop (nplat : Nat) : List Train → Nat → Nat → List ScheduleEntry
  | [], _, _ => []
  | train :: rest, i, current =>
    fallbackEntry nplat i current train ::
      fallbackLoop nplat rest (i + 1) (current + train.duration + 10)

/-- `TrainOptimizer.get_fallback_solution`.  With an empty platform list
`i % len(self.platforms)` raises `ZeroDivisionError` (and, being inside the
`except` handler, it would propagate), modelled by the error case. -/
def get_fallback_solution (trains : List Train) (platforms : List Nat)
    (time_start : Nat) (error_message : String) : Except String OptResult :=
  if platforms.length = 0 then .error "integer division or modulo by zero"
  else
    let schedule := fallbackLoop platforms.length (sortTrains trains) 0 time_start
    .ok { status := "fallback"
          error_message := some error_message
          objective_value := none
          train_schedule := schedule
          platform_allocation := []
          total_delay_minutes := (schedule.map ScheduleEntry.delay_minutes).sum
          on_time_trains := (schedule.filter fun e => e.delay_minutes = 0).length
          delayed_trains := (schedule.filter fun e => 0 < e.delay_minutes).length
          platform_utilization := [] }

/-- The three ways the external CP-SAT solve can come back to
`optimize_train_schedule`: a solution at status `OPTIMAL`/`FEASIBLE`, no
solution (any other status), or an exception raised during model
construction / solving. -/
inductive SolveOutcome where
  | solution (sol : List CpSol)
  | noSolution
  | exceptionRaised (msg : String)
deriving Repr

/-- The control flow of `TrainOptimizer.optimize_train_schedule` around the
solver call: extract on success, otherwise
`get_fallback_solution("No optimal solution found")`, and on any exception
`get_fallback_solution(f"Optimization error: {e}")`. -/
def demo_optimize_train_schedule (trains : List Train) (platforms : List Nat)
    (horizon time_start : Nat) (outcome : SolveOutcome) : Except String OptResult :=
  match outcome with
  | .solution sol =>
    match extract_solution trains horizon time_start sol with
    | .ok r => .ok r
    | .error e =>
        get_fallback_solution trains platforms time_start ("Optimization error: " ++ e)
  | .noSolution =>
      get_fallback_solution trains platforms time_start "No optimal solution found"
  | .exceptionRaised msg =>
      get_fallback_solution trains platforms time_start ("Optimization error: " ++ msg)

/-! ## Scenario modifier (`optimize_for_scenario`, identical mutation in
both engines) -/

/-- The parameter mutation performed by `optimize_for_scenario` before
re-solving.  The `weather` branch adds `random.randint(5, 15)` to each
duration; the sampled values are supplied by the oracle `weatherDelta`
(index ↦ increment). -/
def apply_scenario (scenario : String) (trains : List Train) (platforms : List Nat)
    (weatherDelta : Nat → Nat) : List Train × List Nat :=
  if scenario = "weather" then
    (trains.enum.map fun p => { p.2 with duration := p.2.duration + weatherDelta p.1 },
     platforms)
  else if scenario = "maintenance" then
    (trains, platforms.take 4)
  else if scenario = "peak_hours" then
    (trains.map fun t =>
      if t.train_type = "Passenger" then { t with priority := max 1 (t.priority - 1) } else t,
     platforms)
  else (trains, platforms)

/-! ## Conflict auditor (`analyze_schedule_conflicts`) -/

/-- One conflict record reported by the auditor. -/
structure Conflict where
  conflict_type : String
  trains : List String
  platform : Nat
  overlap_minutes : Nat
deriving Repr, DecidableEq

/-- The pair check inside the double loop of `analyze_schedule_conflicts`:
a conflict is recorded when the two entries share a platform and their
unbuffered `[start, start + duration)` windows are not ordered apart; the
overlap is `min(end, end) - max(start, start)`. -/
def checkConflict (t1 t2 : ScheduleEntry) : Option Conflict :=
  if t1.platform = t2.platform then
    if entryStart t1 + t1.duration ≤ entryStart t2 ∨
        entryStart t2 + t2.duration ≤ entryStart t1 then none
    else some ⟨"Platform Conflict", [t1.train_id, t2.train_id], t1.platform,
      min (entryStart t1 + t1.duration) (entryStart t2 + t2.duration) -
        max (entryStart t1) (entryStart t2)⟩
  else none

/-- `TrainOptimizer.analyze_schedule_conflicts`: all ordered pairs `i < j`,
outer index first. -/
def analyze_schedule_conflicts : List ScheduleEntry → List Conflict
  | [] => []
  | t1 :: rest => rest.filterMap (checkConflict t1) ++ analyze_schedule_conflicts rest

/-! ## Specification-side definitions

`bufferedDisjoint` renders the no-overlap invariant as the spec words it;
`specGreedy` is a second, independent rendering of the greedy algorithm as
§4.3 of the spec describes it, to be compared against the code model. -/

/-- The schedule held in an exact-engine return value: the produced
schedule on success, nothing on a raised exception. -/
def exceptSchedule (x : Except String OptResult) : List ScheduleEntry :=
  match x with
  | .ok r => r.train_schedule
  | .error _ => []

/-- The spec's no-overlap invariant for one pair of assignments: if they
share a platform, the buffered windows `[start, start + duration + buffer)`
have no common minute. -/
def bufferedDisjoint (buffer : Nat) (a b : ScheduleEntry) : Prop :=
  a.platform = b.platform →
    ∀ x : Nat,
      ¬ (entryStart a ≤ x ∧ x < entryStart a + a.duration + buffer ∧
         entryStart b ≤ x ∧ x < entryStart b + b.duration + buffer)

/-- Modelled from the spec (§4.3): "select the platform with the smallest
next-free time (ties broken by lowest platform id)" — the pair that is
lexicographically least in (next-free time, platform id). -/
def specSelect (x : Nat × Nat) : List (Nat × Nat) → Nat × Nat
  | [] => x
  | y :: rest =>
    if y.2 < x.2 ∨ (y.2 = x.2 ∧ y.1 < x.1) then specSelect y rest else specSelect x rest

/-- The (train, platform, start, delay) content of one assignment, as the
spec's algorithm description determines it. -/
structure SpecAssign where
  train_id : String
  platform : Nat
  start : Nat
  delay : Nat
deriving Repr, DecidableEq

/-- Modelled from the spec (§4.3): for each train in sorted order, select
the platform with the smallest next-free time (ties by lowest id), set
`start = max(preferred_absolute_time, platform_next_free)`,
`delay = max(0, start - preferred_absolute_time)`, and advance the chosen
platform's next-free time to `start + duration + buffer` (buffer 5). -/
def specGreedy : List Train → List (Nat × Nat) → List SpecAssign
  | [], _ => []
  | _ :: _, [] => []
  | t :: rest, u :: us =>
    let b := specSelect u us
    let start := max t.preferred_time b.2
    ⟨t.id, b.1, start, start - t.preferred_time⟩ ::
      specGreedy rest (updateUsage (u :: us) b.1 (start + t.duration + 5))

/-- Modelled from the spec (§4.3): trains stably sorted ascending by
priority, per-platform next-free times initialized to `time_start`. -/
def specSchedule (trains : List Train) (platforms : List Nat) (time_start : Nat) :
    List SpecAssign :=
  specGreedy (sortTrains trains) (platforms.map fun p => (p, time_start))

/-- Projection of a produced schedule entry onto the data the spec's
algorithm description constrains. -/
def projAssign (e : ScheduleEntry) : SpecAssign :=
  ⟨e.train_id, e.platform, time_to_minutes e.scheduled_start, e.delay_minutes⟩

/-- The safety invariant carried through the greedy loop: every scheduled
entry ends (buffer included) no later than its platform's recorded
next-free time, and the schedule so far is pairwise overlap-free. -/
def greedyInvariant (acc : GreedyAcc) : Prop :=
  (∀ e ∈ acc.schedule, ∀ q ∈ acc.usage, e.platform = q.1 →
    entryStart e + e.duration + 5 ≤ q.2) ∧
  acc.schedule.Pairwise fun a b => a.platform = b.platform →
    entryStart a + a.duration + 5 ≤ entryStart b

/-- Success status of an exact-engine call, `none` when an exception
escaped. -/
def exceptStatus (x : Except String OptResult) : Option String :=
  x.toOption.map OptResult.status

/-- Error message carried by a returned result, `none` when an exception
escaped. -/
def exceptErrMsg (x : Except String OptResult) : Option (Option String) :=
  x.toOption.map OptResult.error_message

/-! ## Lemmas: time formatting -/

theorem time_to_minutes_minutesToTimeStr (m : Nat) :
    time_to_minutes (minutesToTimeStr m) = m := by
  simp only [time_to_minutes, minutesToTimeStr]
  omega

/-! ## Lemmas: the stable priority sort -/

theorem insertTrain_perm (t : Train) (l : List Train) :
    List.Perm (insertTrain t l) (t :: l) := by
  induction l with
  | nil => simp [insertTrain]
  | cons u us ih =>
    by_cases h : u.priority < t.priority
    · simp only [insertTrain, if_pos h]
      exact List.Perm.trans (List.Perm.cons u ih) (List.Perm.swap t u us)
    · simp [insertTrain, if_neg h]

theorem sortTrains_perm (l : List Train) : List.Perm (sortTrains l) l := by
  induction l with
  | nil => simp [sortTrains]
  | cons t ts ih =>
    exact List.Perm.trans (insertTrain_perm t (sortTrains ts)) (List.Perm.cons t ih)

theorem sortTrains_length (l : List Train) : (sortTrains l).length = l.length :=
  (sortTrains_perm l).length_eq

theorem insertTrain_pairwise (t : Train) (l : List Train)
    (h : l.Pairwise fun a b => a.priority ≤ b.priority) :
    (insertTrain t l).Pairwise fun a b => a.priority ≤ b.priority := by
  induction l with
  | nil => simp [insertTrain]
  | cons u us ih =>
    rw [List.pairwise_cons] at h
    by_cases hc : u.priority < t.priority
    · simp only [insertTrain, if_pos hc, List.pairwise_cons]
      refine ⟨fun b hb => ?_, ih h.2⟩
      rcases List.mem_cons.mp ((insertTrain_perm t us).mem_iff.mp hb) with rfl | hbus
      · exact Nat.le_of_lt hc
      · exact h.1 b hbus
    · simp only [insertTrain, if_neg hc, List.pairwise_cons]
      refine ⟨fun b hb => ?_, h.1, h.2⟩
      rcases List.mem_cons.mp hb with rfl | hbus
      · exact Nat.le_of_not_lt hc
      · exact Nat.le_trans (Nat.le_of_not_lt hc) (h.1 b hbus)

theorem sortTrains_pairwise (l : List Train) :
    (sortTrains l).Pairwise fun a b => a.priority ≤ b.priority := by
  induction l with
  | nil => simp [sortTrains]
  | cons t ts ih => exact insertTrain_pairwise t (sortTrains ts) ih

theorem insertTrain_filter (t : Train) (l : List Train) (k : Nat) :
    (insertTrain t l).filter (fun u => u.priority == k) =
      if t.priority == k then t :: l.filter (fun u => u.priority == k)
      else l.filter (fun u => u.priority == k) := by
  induction l with
  | nil => by_cases ht : t.priority == k <;> simp [insertTrain, ht]
  | cons u us ih =>
    by_cases hc : u.priority < t.priority
    · simp only [insertTrain, if_pos hc, List.filter_cons]
      by_cases hu : u.priority == k
      · by_cases ht : t.priority == k
        · exfalso
          have h1 : u.priority = k := by simpa using hu
          have h2 : t.priority = k := by simpa using ht
          omega
        · simp [hu, ht, ih]
      · simp [hu, ih]
    · simp only [insertTrain, if_neg hc]
      by_cases ht : t.priority == k <;> simp [List.filter_cons, ht]

theorem sortTrains_filter (l : List Train) (k : Nat) :
    (sortTrains l).filter (fun u => u.priority == k) =
      l.filter (fun u => u.priority == k) := by
  induction l with
  | nil => simp [sortTrains]
  | cons t ts ih =>
    by_cases ht : t.priority == k <;>
      simp [sortTrains, insertTrain_filter, ht, ih, List.filter_cons]

/-! ## Lemmas: the usage map and the platform argmin -/

theorem minBySnd_mem (x : Nat × Nat) (l : List (Nat × Nat)) :
    minBySnd x l ∈ x :: l := by
  induction l generalizing x with
  | nil => simp [minBySnd]
  | cons y ys ih =>
    by_cases h : y.2 < x.2
    · simp only [minBySnd, if_pos h]
      have := ih y
      simp only [List.mem_cons] at this ⊢
      tauto
    · simp only [minBySnd, if_neg h]
      have := ih x
      simp only [List.mem_cons] at this ⊢
      tauto

theorem minBySnd_le_head (x : Nat × Nat) (l : List (Nat × Nat)) :
    (minBySnd x l).2 ≤ x.2 := by
  induction l generalizing x with
  | nil => simp [minBySnd]
  | cons y ys ih =>
    by_cases h : y.2 < x.2
    · simp only [minBySnd, if_pos h]
      exact Nat.le_trans (ih y) (Nat.le_of_lt h)
    · simp only [minBySnd, if_neg h]
      exact ih x

theorem minBySnd_le (x : Nat × Nat) (l : List (Nat × Nat)) :
    ∀ y ∈ l, (minBySnd x l).2 ≤ y.2 := by
  induction l generalizing x with
  | nil => simp
  | cons y ys ih =>
    intro z hz
    rcases List.mem_cons.mp hz with rfl | hzs
    · by_cases h : z.2 < x.2
      · simpa [minBySnd, if_pos h] using minBySnd_le_head z ys
      · simp only [minBySnd, if_neg h]
        exact Nat.le_trans (minBySnd_le_head x ys) (Nat.le_of_not_lt h)
    · by_cases h : y.2 < x.2
      · simp only [minBySnd, if_pos h]
        exact ih y z hzs
      · simp only [minBySnd, if_neg h]
        exact ih x z hzs

theorem updateUsage_keys (l : List (Nat × Nat)) (p v : Nat) :
    (updateUsage l p v).map Prod.fst = l.map Prod.fst := by
  induction l with
  | nil => simp [updateUsage]
  | cons q qs ih =>
    by_cases h : q.1 = p <;> simp_all [updateUsage]

theorem updateUsage_length (l : List (Nat × Nat)) (p v : Nat) :
    (updateUsage l p v).length = l.length := by
  simp [updateUsage]

theorem mem_updateUsage {l : List (Nat × Nat)} {p v : Nat} {q' : Nat × Nat}
    (h : q' ∈ updateUsage l p v) :
    ∃ q ∈ l, (q.1 = p ∧ q' = (p, v)) ∨ (q.1 ≠ p ∧ q' = q) := by
  rcases List.mem_map.mp h with ⟨q, hq, hq'⟩
  refine ⟨q, hq, ?_⟩
  by_cases hqp : q.1 = p
  · left
    rw [if_pos hqp] at hq'
    exact ⟨hqp, by rw [← hq', hqp]⟩
  · right
    rw [if_neg hqp] at hq'
    exact ⟨hqp, hq'.symm⟩

/-! ## Lemmas: the greedy loop -/

theorem greedyEntry_start (ts : Nat) (t : Train) (b : Nat × Nat) :
    entryStart (greedyEntry ts t b) = max (max ts t.preferred_time) b.2 := by
  simp [entryStart, greedyEntry, time_to_minutes_minutesToTimeStr]

theorem greedyEntry_platform (ts : Nat) (t : Train) (b : Nat × Nat) :
    (greedyEntry ts t b).platform = b.1 := rfl

theorem greedyEntry_duration (ts : Nat) (t : Train) (b : Nat × Nat) :
    (greedyEntry ts t b).duration = t.duration := rfl

theorem greedyEntry_id (ts : Nat) (t : Train) (b : Nat × Nat) :
    (greedyEntry ts t b).train_id = t.id := rfl

theorem greedyRun_cons (ts : Nat) (t : Train) (rest : List Train) (acc : GreedyAcc)
    (u : Nat × Nat) (us : List (Nat × Nat)) (hu : acc.usage = u :: us) :
    greedyRun ts (t :: rest) acc =
      greedyRun ts rest
        ⟨acc.schedule ++ [greedyEntry ts t (minBySnd u us)],
         updateUsage acc.usage (minBySnd u us).1
           (max (max ts t.preferred_time) (minBySnd u us).2 + t.duration + 5),
         acc.total_delay +
           (max (max ts t.preferred_time) (minBySnd u us).2 - t.preferred_time)⟩ := by
  simp only [greedyRun, hu, argminUsage]

theorem greedyRun_invariant (ts : Nat) (l : List Train) (acc acc' : GreedyAcc)
    (h : greedyRun ts l acc = .ok acc') (hinv : greedyInvariant acc) :
    greedyInvariant acc' := by
  induction l generalizing acc with
  | nil =>
    simp only [greedyRun] at h
    cases h
    exact hinv
  | cons t rest ih =>
    rcases hu : acc.usage with _ | ⟨u, us⟩
    · simp only [greedyRun, hu, argminUsage] at h
      exact Except.noConfusion h
    · rw [greedyRun_cons ts t rest acc u us hu] at h
      set b := minBySnd u us with hb
      have hbmem : b ∈ acc.usage := by rw [hu]; exact minBySnd_mem u us
      set start := max (max ts t.preferred_time) b.2 with hstart
      have hble : b.2 ≤ start := le_max_right _ _
      refine ih _ h ⟨?_, ?_⟩
      · intro e he q' hq' hpq
        rcases List.mem_append.mp he with he | he
        · rcases mem_updateUsage hq' with ⟨q, hq, hcase | hcase⟩
          · have hq2 : q'.2 = start + t.duration + 5 := by rw [hcase.2]
            have hq1 : q'.1 = b.1 := by rw [hcase.2]
            have := hinv.1 e he b hbmem (hpq.trans hq1)
            omega
          · have hq'q : q' = q := hcase.2
            subst hq'q
            exact hinv.1 e he q' hq hpq
        · rcases List.mem_singleton.mp he with rfl
          have hpl : (greedyEntry ts t b).platform = b.1 := rfl
          rcases mem_updateUsage hq' with ⟨q, hq, hcase | hcase⟩
          · have : q'.2 = start + t.duration + 5 := by rw [hcase.2]
            rw [greedyEntry_start, greedyEntry_duration, ← hstart, this]
          · exfalso
            have hq1 : q'.1 = b.1 := hpq.symm.trans hpl
            rw [hcase.2] at hq1
            exact hcase.1 hq1
      · rw [List.pairwise_append]
        refine ⟨hinv.2, List.pairwise_singleton _ _, ?_⟩
        intro a ha e he hpe
        rcases List.mem_singleton.mp he with rfl
        rw [greedyEntry_start, ← hstart]
        have := hinv.1 a ha b hbmem (hpe.trans (greedyEntry_platform ts t b))
        omega

theorem greedyRun_start_ge (ts : Nat) (l : List Train) (acc acc' : GreedyAcc)
    (h : greedyRun ts l acc = .ok acc')
    (hs : ∀ e ∈ acc.schedule, ts ≤ entryStart e) :
    ∀ e ∈ acc'.schedule, ts ≤ entryStart e := by
  induction l generalizing acc with
  | nil =>
    simp only [greedyRun] at h
    cases h
    exact hs
  | cons t rest ih =>
    rcases hu : acc.usage with _ | ⟨u, us⟩
    · simp only [greedyRun, hu, argminUsage] at h
      exact Except.noConfusion h
    · rw [greedyRun_cons ts t rest acc u us hu] at h
      refine ih _ h ?_
      intro e he
      rcases List.mem_append.mp he with he | he
      · exact hs e he
      · rcases List.mem_singleton.mp he with rfl
        rw [greedyEntry_start]
        omega

theorem greedyRun_ok (ts : Nat) (l : List Train) (acc : GreedyAcc)
    (h : acc.usage ≠ []) :
    ∃ acc', greedyRun ts l acc = .ok acc' ∧
      acc'.schedule.map ScheduleEntry.train_id =
        acc.schedule.map ScheduleEntry.train_id ++ l.map Train.id ∧
      acc'.usage.map Prod.fst = acc.usage.map Prod.fst := by
  induction l generalizing acc with
  | nil => exact ⟨acc, by simp [greedyRun]⟩
  | cons t rest ih =>
    rcases hu : acc.usage with _ | ⟨u, us⟩
    · exact absurd hu h
    · have hkeys : (updateUsage acc.usage (minBySnd u us).1
          (max (max ts t.preferred_time) (minBySnd u us).2 + t.duration + 5)).map Prod.fst
          = acc.usage.map Prod.fst := updateUsage_keys _ _ _
      have hne : updateUsage acc.usage (minBySnd u us).1
          (max (max ts t.preferred_time) (minBySnd u us).2 + t.duration + 5) ≠ [] := by
        intro hc
        have hk := updateUsage_keys acc.usage (minBySnd u us).1
          (max (max ts t.preferred_time) (minBySnd u us).2 + t.duration + 5)
        rw [hc, hu] at hk
        simp at hk
      obtain ⟨acc', hrun, hids, husage⟩ := ih
        ⟨acc.schedule ++ [greedyEntry ts t (minBySnd u us)],
         updateUsage acc.usage (minBySnd u us).1
           (max (max ts t.preferred_time) (minBySnd u us).2 + t.duration + 5),
         acc.total_delay +
           (max (max ts t.preferred_time) (minBySnd u us).2 - t.preferred_time)⟩ hne
      refine ⟨acc', ?_, ?_, ?_⟩
      · rw [greedyRun_cons ts t rest acc u us hu]
        exact hrun
      · rw [hids]
        simp [greedyEntry_id]
      · rw [husage, ← hu]
        exact hkeys

/-! ## Lemmas: allocation building and utilization lookups -/

theorem mem_addAlloc {alloc : List (Nat × List AllocEntry)} {p : Nat} {e : AllocEntry}
    {q : Nat × List AllocEntry} (h : q ∈ addAlloc alloc p e) :
    (∃ q0 ∈ alloc, q.2 = q0.2 ∨ q.2 = q0.2 ++ [e]) ∨ q.2 = [e] := by
  unfold addAlloc at h
  split at h
  · rcases List.mem_map.mp h with ⟨q0, hq0, hq⟩
    by_cases hc : q0.1 = p
    · rw [if_pos hc] at hq
      exact Or.inl ⟨q0, hq0, Or.inr (by rw [← hq])⟩
    · rw [if_neg hc] at hq
      exact Or.inl ⟨q0, hq0, Or.inl (by rw [← hq])⟩
  · rcases List.mem_append.mp h with h | h
    · exact Or.inl ⟨q, h, Or.inl rfl⟩
    · rcases List.mem_singleton.mp h with rfl
      exact Or.inr rfl

theorem buildAlloc_aux (P : AllocEntry → Prop) :
    ∀ (s : List ScheduleEntry) (acc : List (Nat × List AllocEntry)),
      (∀ e ∈ s, P ⟨e.train_id, e.scheduled_start, e.scheduled_end⟩) →
      (∀ q ∈ acc, ∀ a ∈ q.2, P a) →
      ∀ q ∈ s.foldl
        (fun alloc e => addAlloc alloc e.platform ⟨e.train_id, e.scheduled_start, e.scheduled_end⟩)
        acc,
        ∀ a ∈ q.2, P a := by
  intro s
  induction s with
  | nil =>
    intro acc _ hacc
    simpa using hacc
  | cons e es ih =>
    intro acc hs hacc
    simp only [List.foldl_cons]
    refine ih _ (fun x hx => hs x (List.mem_cons_of_mem e hx)) ?_
    intro q' hq' a' ha'
    rcases mem_addAlloc hq' with ⟨q0, hq0, hcase | hcase⟩ | hcase
    · exact hacc q0 hq0 a' (hcase ▸ ha')
    · rw [hcase] at ha'
      rcases List.mem_append.mp ha' with h | h
      · exact hacc q0 hq0 a' h
      · rcases List.mem_singleton.mp h with rfl
        exact hs e (List.mem_cons_self e es)
    · rw [hcase] at ha'
      rcases List.mem_singleton.mp ha' with rfl
      exact hs e (List.mem_cons_self e es)

theorem buildAllocation_prop (P : AllocEntry → Prop) (s : List ScheduleEntry)
    (hs : ∀ e ∈ s, P ⟨e.train_id, e.scheduled_start, e.scheduled_end⟩) :
    ∀ q ∈ buildAllocation s, ∀ a ∈ q.2, P a :=
  buildAlloc_aux P s [] hs (by simp)

theorem lookupDuration_isSome (trains : List Train) (tid : String)
    (h : ∃ t ∈ trains, t.id = tid) : ∃ d, lookupDuration trains tid = some d := by
  induction trains with
  | nil => simp at h
  | cons u us ih =>
    by_cases hu : u.id = tid
    · exact ⟨u.duration, by simp [lookupDuration, List.find?_cons_of_pos, hu]⟩
    · rcases h with ⟨t, ht, hid⟩
      rcases List.mem_cons.mp ht with rfl | htail
      · exact absurd hid hu
      · obtain ⟨d, hd⟩ := ih ⟨t, htail, hid⟩
        refine ⟨d, ?_⟩
        unfold lookupDuration at hd ⊢
        rw [List.find?_cons_of_neg]
        · exact hd
        · simp [hu]

theorem sumDurations_isSome (trains : List Train) (es : List AllocEntry)
    (h : ∀ a ∈ es, ∃ t ∈ trains, t.id = a.train_id) :
    ∃ d, sumDurations trains es = some d := by
  induction es with
  | nil => exact ⟨0, rfl⟩
  | cons a as ih =>
    obtain ⟨d, hd⟩ := lookupDuration_isSome trains a.train_id (h a (List.mem_cons_self a as))
    obtain ⟨s, hsum⟩ := ih fun x hx => h x (List.mem_cons_of_mem a hx)
    exact ⟨d + s, by simp [sumDurations, hd, hsum]⟩

theorem utilEntries_isSome (trains : List Train) (tt : Nat)
    (alloc : List (Nat × List AllocEntry))
    (h : ∀ q ∈ alloc, ∀ a ∈ q.2, ∃ t ∈ trains, t.id = a.train_id) :
    ∃ u, utilEntries trains tt alloc = some u := by
  induction alloc with
  | nil => exact ⟨[], rfl⟩
  | cons q rest ih =>
    obtain ⟨d, hd⟩ := sumDurations_isSome trains q.2 (h q (List.mem_cons_self q rest))
    obtain ⟨u, hu⟩ := ih fun x hx => h x (List.mem_cons_of_mem q hx)
    exact ⟨(("platform_" ++ toString q.1 : String), ((d : ℚ) / tt) * 100) :: u,
      by simp [utilEntries, hd, hu]⟩

/-- With a non-empty train list and a non-empty platform list the heuristic
engine's `try:` body runs to completion: status `"optimal"`, one schedule
entry per train, train ids a permutation of the input ids. -/
theorem simpleCore_ok (trains : List Train) (platforms : List Nat) (ts : Nat)
    (htr : trains ≠ []) (hpl : platforms ≠ []) :
    ∃ r, simpleCore trains platforms ts = .ok r ∧ r.status = "optimal" ∧
      r.train_schedule.length = trains.length ∧
      List.Perm (r.train_schedule.map ScheduleEntry.train_id) (trains.map Train.id) := by
  have hune : (platforms.map fun p => (p, ts)) ≠ [] := by
    intro hc
    exact hpl (by simpa using congrArg List.length hc)
  obtain ⟨acc', hrun, hids, husage⟩ :=
    greedyRun_ok ts (sortTrains trains) ⟨[], platforms.map fun p => (p, ts), 0⟩ hune
  simp only [List.map_nil, List.nil_append] at hids
  have hids_perm : List.Perm (acc'.schedule.map ScheduleEntry.train_id)
      (trains.map Train.id) := by
    rw [hids]
    exact (sortTrains_perm trains).map Train.id
  have hmem : ∀ e ∈ acc'.schedule, ∃ t ∈ trains, t.id = e.train_id := by
    intro e he
    have : e.train_id ∈ acc'.schedule.map ScheduleEntry.train_id :=
      List.mem_map.mpr ⟨e, he, rfl⟩
    rw [hids] at this
    rcases List.mem_map.mp this with ⟨t, ht, hid⟩
    exact ⟨t, (sortTrains_perm trains).mem_iff.mp ht, hid⟩
  obtain ⟨util, hutil⟩ := utilEntries_isSome trains 480 (buildAllocation acc'.schedule)
    (buildAllocation_prop _ acc'.schedule fun e he => hmem e he)
  have hlen0 : ¬ trains.length = 0 := by
    intro hc
    exact htr (List.length_eq_zero.mp hc)
  have hcalc : simple_calculate_platform_utilization trains platforms
      (buildAllocation acc'.schedule) = some (util ++
        ((platforms.filter fun p =>
            ¬ (buildAllocation acc'.schedule).any fun q => q.1 = p).map
          fun p => (("platform_" ++ toString p : String), (0 : ℚ)))) := by
    unfold simple_calculate_platform_utilization
    rw [hutil]
  have hlen : acc'.schedule.length = trains.length := by
    calc acc'.schedule.length = (acc'.schedule.map ScheduleEntry.train_id).length := by
          simp
    _ = (trains.map Train.id).length := hids_perm.length_eq
    _ = trains.length := by simp
  have hsc : simpleCore trains platforms ts = simpleFinish trains platforms acc' := by
    unfold simpleCore
    rw [hrun]
  have hfin : simpleFinish trains platforms acc' = .ok
      { status := "optimal"
        error_message := none
        objective_value := some acc'.total_delay
        train_schedule := acc'.schedule
        platform_allocation := buildAllocation acc'.schedule
        total_delay_minutes := acc'.total_delay
        on_time_trains := (acc'.schedule.filter fun e => e.delay_minutes = 0).length
        delayed_trains := acc'.schedule.length -
          (acc'.schedule.filter fun e => e.delay_minutes = 0).length
        platform_utilization := util ++
          ((platforms.filter fun p =>
              ¬ (buildAllocation acc'.schedule).any fun q => q.1 = p).map
            fun p => (("platform_" ++ toString p : String), (0 : ℚ))) } := by
    unfold simpleFinish
    rw [if_neg hlen0, hcalc]
  exact ⟨_, hsc.trans hfin, rfl, hlen, hids_perm⟩

/-! ## Lemmas: the CP-SAT constraint system -/

theorem pairPlatformOk_no_overlap {t1 : Train} {s1 : CpSol} {t2 : Train} {s2 : CpSol}
    (h : pairPlatformOk t1 s1 t2 s2) (hp : s1.platform = s2.platform) :
    s1.start + t1.duration + 5 ≤ s2.start ∨ s2.start + t2.duration + 5 ≤ s1.start := by
  obtain ⟨sp, no1, no2, h1, h2, h3, h4, h5⟩ := h
  cases sp with
  | false => exact absurd hp (h2 rfl)
  | true =>
    rcases h5 with h5 | h5 | h5
    · exact Or.inl (h3 h5)
    · exact Or.inr (h4 h5)
    · exact Bool.noConfusion h5

theorem extractEntry_fields (ts : Nat) (t : Train) (s : CpSol) :
    entryStart (extractEntry ts t s) = ts + s.start ∧
    (extractEntry ts t s).platform = s.platform ∧
    (extractEntry ts t s).duration = t.duration ∧
    (extractEntry ts t s).delay_minutes = s.delay ∧
    (extractEntry ts t s).priority = t.priority ∧
    (extractEntry ts t s).train_id = t.id := by
  refine ⟨?_, rfl, rfl, rfl, rfl, rfl⟩
  simp [entryStart, extractEntry, time_to_minutes_minutesToTimeStr]

/-! ## Lemmas: the FIFO fallback loop -/

theorem fallbackEntry_fields (nplat i current : Nat) (train : Train) :
    entryStart (fallbackEntry nplat i current train) = current ∧
    (fallbackEntry nplat i current train).platform = i % nplat + 1 ∧
    (fallbackEntry nplat i current train).duration = train.duration ∧
    (fallbackEntry nplat i current train).delay_minutes =
      current - train.preferred_time ∧
    (fallbackEntry nplat i current train).train_id = train.id := by
  refine ⟨?_, rfl, rfl, rfl, rfl⟩
  simp [entryStart, fallbackEntry, time_to_minutes_minutesToTimeStr]

theorem fallbackLoop_start_ge (nplat : Nat) (l : List Train) (i cur : Nat) :
    ∀ e ∈ fallbackLoop nplat l i cur, cur ≤ entryStart e := by
  induction l generalizing i cur with
  | nil => simp [fallbackLoop]
  | cons t rest ih =>
    intro e he
    rcases List.mem_cons.mp he with rfl | he
    · rw [(fallbackEntry_fields nplat i cur t).1]
    · exact Nat.le_trans (by omega) (ih (i + 1) (cur + t.duration + 10) e he)

theorem fallbackLoop_pairwise (nplat : Nat) (l : List Train) (i cur : Nat) :
    (fallbackLoop nplat l i cur).Pairwise fun a b =>
      entryStart a + a.duration + 10 ≤ entryStart b := by
  induction l generalizing i cur with
  | nil => simp [fallbackLoop]
  | cons t rest ih =>
    rw [fallbackLoop, List.pairwise_cons]
    refine ⟨fun b hb => ?_, ih _ _⟩
    have := fallbackLoop_start_ge nplat rest (i + 1) (cur + t.duration + 10) b hb
    rw [(fallbackEntry_fields nplat i cur t).1, (fallbackEntry_fields nplat i cur t).2.2.1]
    omega

theorem fallbackLoop_ids (nplat : Nat) (l : List Train) (i cur : Nat) :
    (fallbackLoop nplat l i cur).map ScheduleEntry.train_id = l.map Train.id := by
  induction l generalizing i cur with
  | nil => simp [fallbackLoop]
  | cons t rest ih =>
    rw [fallbackLoop, List.map_cons, List.map_cons, ih,
      (fallbackEntry_fields nplat i cur t).2.2.2.2]

theorem fallbackLoop_length (nplat : Nat) (l : List Train) (i cur : Nat) :
    (fallbackLoop nplat l i cur).length = l.length := by
  have := congrArg List.length (fallbackLoop_ids nplat l i cur)
  simpa using this

theorem fallbackLoop_getElem (nplat : Nat) (l : List Train) (i cur j : Nat) :
    (fallbackLoop nplat l i cur)[j]? =
      (l[j]?).map fun t =>
        fallbackEntry nplat (i + j)
          (cur + (((l.take j).map fun u => u.duration + 10).sum)) t := by
  induction l generalizing i cur j with
  | nil => simp [fallbackLoop]
  | cons t rest ih =>
    cases j with
    | zero => simp [fallbackLoop]
    | succ j =>
      rw [fallbackLoop]
      simp only [List.getElem?_cons_succ, List.take_succ_cons, List.map_cons, List.sum_cons]
      rw [ih]
      have harith : i + 1 + j = i + (j + 1) := by omega
      have harith2 : ∀ s : Nat, cur + t.duration + 10 + s =
          cur + (t.duration + 10 + s) := by omega
      rw [harith, harith2]

/-- With a non-empty platform list `get_fallback_solution` succeeds and
returns the FIFO schedule with the supplied diagnostic message. -/
theorem get_fallback_solution_ok (trains : List Train) (platforms : List Nat)
    (ts : Nat) (msg : String) (hp : platforms ≠ []) :
    ∃ r, get_fallback_solution trains platforms ts msg = .ok r ∧
      r.status = "fallback" ∧ r.error_message = some msg ∧
      r.train_schedule = fallbackLoop platforms.length (sortTrains trains) 0 ts := by
  have hlen : ¬ platforms.length = 0 := by
    intro hc
    exact hp (List.length_eq_zero.mp hc)
  have heq : get_fallback_solution trains platforms ts msg = .ok
      { status := "fallback"
        error_message := some msg
        objective_value := none
        train_schedule := fallbackLoop platforms.length (sortTrains trains) 0 ts
        platform_allocation := []
        total_delay_minutes := ((fallbackLoop platforms.length (sortTrains trains) 0
          ts).map ScheduleEntry.delay_minutes).sum
        on_time_trains := ((fallbackLoop platforms.length (sortTrains trains) 0
          ts).filter fun e => e.delay_minutes = 0).length
        delayed_trains := ((fallbackLoop platforms.length (sortTrains trains) 0
          ts).filter fun e => 0 < e.delay_minutes).length
        platform_utilization := [] } := by
    unfold get_fallback_solution
    rw [if_neg hlen]
  exact ⟨_, heq, rfl, rfl, rfl⟩

/-! ## Lemmas: result shapes -/

theorem simpleCore_schedule (trains : List Train) (platforms : List Nat) (ts : Nat)
    (r : OptResult) (h : simpleCore trains platforms ts = .ok r) :
    ∃ acc', greedyRun ts (sortTrains trains)
        ⟨[], platforms.map (fun p => (p, ts)), 0⟩ = .ok acc' ∧
      r.train_schedule = acc'.schedule := by
  unfold simpleCore at h
  rcases hrun : greedyRun ts (sortTrains trains)
      ⟨[], platforms.map (fun p => (p, ts)), 0⟩ with e | acc
  · rw [hrun] at h
    exact Except.noConfusion h
  · rw [hrun] at h
    refine ⟨acc, rfl, ?_⟩
    have h' : simpleFinish trains platforms acc = .ok r := h
    unfold simpleFinish at h'
    by_cases hlen : trains.length = 0
    · rw [if_pos hlen] at h'
      exact Except.noConfusion h'
    · rw [if_neg hlen] at h'
      rcases hc : simple_calculate_platform_utilization trains platforms
          (buildAllocation acc.schedule) with _ | util
      · rw [hc] at h'
        exact Except.noConfusion h'
      · rw [hc] at h'
        cases h'
        rfl

theorem extract_solution_schedule (trains : List Train) (horizon ts : Nat)
    (sol : List CpSol) :
    exceptSchedule (extract_solution trains horizon ts sol) = [] ∨
    exceptSchedule (extract_solution trains horizon ts sol) =
      extractSchedule ts trains sol := by
  unfold extract_solution
  by_cases hlen : trains.length = 0
  · rw [if_pos hlen]
    exact Or.inl rfl
  · rw [if_neg hlen]
    rcases hc : demo_calculate_platform_utilization trains horizon
        (buildAllocation (extractSchedule ts trains sol)) with _ | util
    · exact Or.inl rfl
    · exact Or.inr rfl

/-! ## The claims -/

/-- C1: for every schedule returned by either engine — a solution the exact
CP-SAT engine accepts (any valuation satisfying its constraint model, as
extracted by `extract_solution`), the FIFO fallback path, and the greedy
heuristic — any two assignments sharing a platform have disjoint buffered
windows `[start, start + duration + buffer)`, the buffer being 5 minutes in
the exact engine and the heuristic, and 10 minutes on the fallback path. -/
theorem C1_no_overlap_invariant :
    (∀ (trains : List Train) (platforms : List Nat) (horizon ts : Nat) (sol : List CpSol),
      cpsatFeasible trains platforms horizon ts sol →
      (exceptSchedule (extract_solution trains horizon ts sol)).Pairwise
        (bufferedDisjoint 5)) ∧
    (∀ (trains : List Train) (platforms : List Nat) (ts : Nat),
      (simple_optimize_train_schedule trains platforms ts).train_schedule.Pairwise
        (bufferedDisjoint 5)) ∧
    (∀ (trains : List Train) (platforms : List Nat) (ts : Nat) (msg : String),
      (exceptSchedule (get_fallback_solution trains platforms ts msg)).Pairwise
        (bufferedDisjoint 10)) := by
  refine ⟨?_, ?_, ?_⟩
  · intro trains platforms horizon ts sol h
    rcases extract_solution_schedule trains horizon ts sol with he | he
    · rw [he]
      exact List.Pairwise.nil
    · rw [he]
      unfold extractSchedule
      rw [List.pairwise_map]
      refine h.2.2.imp ?_
      intro a b hab
      obtain ⟨ha1, ha2, ha3, -, -, -⟩ := extractEntry_fields ts a.1 a.2
      obtain ⟨hb1, hb2, hb3, -, -, -⟩ := extractEntry_fields ts b.1 b.2
      intro hplat x
      rw [ha2, hb2] at hplat
      have hdis := pairPlatformOk_no_overlap hab.1 hplat
      rw [ha1, hb1, ha3, hb3]
      omega
  · intro trains platforms ts
    unfold simple_optimize_train_schedule
    rcases hres : simpleCore trains platforms ts with e | r
    · exact List.Pairwise.nil
    · obtain ⟨acc', hrun, hsched⟩ := simpleCore_schedule trains platforms ts r hres
      rw [hsched]
      have hinv := greedyRun_invariant ts (sortTrains trains)
        ⟨[], platforms.map (fun p => (p, ts)), 0⟩ acc' hrun
        ⟨by simp, List.Pairwise.nil⟩
      refine hinv.2.imp ?_
      intro a b hab hplat x
      have := hab hplat
      omega
  · intro trains platforms ts msg
    unfold get_fallback_solution
    split
    · exact List.Pairwise.nil
    · have hpw := fallbackLoop_pairwise platforms.length (sortTrains trains) 0 ts
      refine hpw.imp ?_
      intro a b hab hplat x
      omega

/-- Witness for C1 at the default inputs of both optimizers: a concrete
feasible CP-SAT valuation (each train at its preferred relative time on its
own platform), the heuristic run, and the fallback run. -/
theorem C1_no_overlap_invariant_witness :
    (exceptSchedule (extract_solution defaultTrains 480 360
      [⟨270, 1, 0⟩, ⟨315, 2, 0⟩, ⟨360, 3, 0⟩, ⟨285, 4, 0⟩])).Pairwise
        (bufferedDisjoint 5) ∧
    (simple_optimize_train_schedule defaultTrains defaultPlatforms
      360).train_schedule.Pairwise (bufferedDisjoint 5) ∧
    (exceptSchedule (get_fallback_solution defaultTrains defaultPlatforms 360
      "No optimal solution found")).Pairwise (bufferedDisjoint 10) :=
  ⟨C1_no_overlap_invariant.1 defaultTrains defaultPlatforms 480 360
      [⟨270, 1, 0⟩, ⟨315, 2, 0⟩, ⟨360, 3, 0⟩, ⟨285, 4, 0⟩] (by decide),
   C1_no_overlap_invariant.2.1 defaultTrains defaultPlatforms 360,
   C1_no_overlap_invariant.2.2 defaultTrains defaultPlatforms 360
     "No optimal solution found"⟩

/-- C10: every assignment produced by the greedy heuristic has an absolute
scheduled start at or after `time_start` (360 = 06:00 in the program),
even for a train whose preferred time is earlier, since the start is the
maximum of `max(time_start, preferred_time)` and a next-free time that is
initialized to `time_start` and only grows. -/
theorem C10_start_clamped_to_time_start (trains : List Train) (platforms : List Nat)
    (ts : Nat) (e : ScheduleEntry)
    (he : e ∈ (simple_optimize_train_schedule trains platforms ts).train_schedule) :
    ts ≤ entryStart e := by
  unfold simple_optimize_train_schedule at he
  rcases hres : simpleCore trains platforms ts with er | r
  · rw [hres] at he
    simp at he
  · rw [hres] at he
    have he' : e ∈ r.train_schedule := he
    obtain ⟨acc', hrun, hsched⟩ := simpleCore_schedule trains platforms ts r hres
    rw [hsched] at he'
    exact greedyRun_start_ge ts (sortTrains trains) _ acc' hrun (by simp) e he'

/-- Witness for C10: the first greedy assignment of the default scenario,
starting 10:30 ≥ 06:00. -/
theorem C10_start_clamped_to_time_start_witness :
    360 ≤ entryStart
      { train_id := "T001", train_type := "Express", priority := 1,
        scheduled_start := ⟨10, 30⟩, scheduled_end := ⟨10, 40⟩, platform := 1,
        delay_minutes := 0, duration := 10 } :=
  C10_start_clamped_to_time_start defaultTrains defaultPlatforms 360 _ (by decide)

/-- C7: with a non-empty platform set and non-empty train list, the greedy
heuristic engine cannot fail: its `except` branch (status `"error"`, empty
schedule) is unreachable, the result has status `"optimal"` and exactly one
assignment per input train (ids a permutation of the input ids). -/
theorem C7_heuristic_never_fails (trains : List Train) (platforms : List Nat)
    (ts : Nat) (htr : trains ≠ []) (hpl : platforms ≠ []) :
    ∃ r, simpleCore trains platforms ts = .ok r ∧
      simple_optimize_train_schedule trains platforms ts = r ∧
      r.status = "optimal" ∧
      r.train_schedule.length = trains.length ∧
      List.Perm (r.train_schedule.map ScheduleEntry.train_id) (trains.map Train.id) := by
  obtain ⟨r, hok, hst, hlen, hperm⟩ := simpleCore_ok trains platforms ts htr hpl
  refine ⟨r, hok, ?_, hst, hlen, hperm⟩
  unfold simple_optimize_train_schedule
  rw [hok]

/-- Witness for C7 at the default inputs. -/
theorem C7_heuristic_never_fails_witness :
    defaultTrains ≠ [] ∧ defaultPlatforms ≠ [] ∧
    (simple_optimize_train_schedule defaultTrains defaultPlatforms 360).status
      = "optimal" ∧
    (simple_optimize_train_schedule defaultTrains defaultPlatforms
      360).train_schedule.length = defaultTrains.length := by
  obtain ⟨r, hok, heq, hst, hlen, hperm⟩ :=
    C7_heuristic_never_fails defaultTrains defaultPlatforms 360 (by decide) (by decide)
  exact ⟨by decide, by decide, by rw [heq, hst], by rw [heq, hlen]⟩

/-- C3: in any solution the exact engine accepts (it satisfies the posted
constraint model), for every ordered pair of trains with strictly lower
numeric priority on the first, the reported delays obey
`delay(A) <= delay(B) + (priority(B) - priority(A)) * 10`. -/
theorem C3_priority_ordering (trains : List Train) (platforms : List Nat)
    (horizon ts : Nat) (sol : List CpSol)
    (h : cpsatFeasible trains platforms horizon ts sol) :
    (extractSchedule ts trains sol).Pairwise fun a b =>
      (a.priority < b.priority →
        a.delay_minutes ≤ b.delay_minutes + (b.priority - a.priority) * 10) ∧
      (b.priority < a.priority →
        b.delay_minutes ≤ a.delay_minutes + (a.priority - b.priority) * 10) := by
  unfold extractSchedule
  rw [List.pairwise_map]
  refine h.2.2.imp ?_
  intro a b hab
  obtain ⟨-, -, -, ha4, ha5, -⟩ := extractEntry_fields ts a.1 a.2
  obtain ⟨-, -, -, hb4, hb5, -⟩ := extractEntry_fields ts b.1 b.2
  rw [ha4, hb4, ha5, hb5]
  constructor
  · intro hpr
    have := hab.2.1 hpr
    unfold pairPriorityOk at this
    omega
  · intro hpr
    have := hab.2.2 hpr
    unfold pairPriorityOk at this
    omega

/-- Witness for C3: a concrete feasible valuation on the default inputs. -/
theorem C3_priority_ordering_witness :
    cpsatFeasible defaultTrains defaultPlatforms 480 360
      [⟨270, 1, 0⟩, ⟨315, 2, 0⟩, ⟨360, 3, 0⟩, ⟨285, 4, 0⟩] ∧
    (extractSchedule 360 defaultTrains
      [⟨270, 1, 0⟩, ⟨315, 2, 0⟩, ⟨360, 3, 0⟩, ⟨285, 4, 0⟩]).Pairwise fun a b =>
      (a.priority < b.priority →
        a.delay_minutes ≤ b.delay_minutes + (b.priority - a.priority) * 10) ∧
      (b.priority < a.priority →
        b.delay_minutes ≤ a.delay_minutes + (a.priority - b.priority) * 10) :=
  ⟨by decide,
   C3_priority_ordering defaultTrains defaultPlatforms 480 360
     [⟨270, 1, 0⟩, ⟨315, 2, 0⟩, ⟨360, 3, 0⟩, ⟨285, 4, 0⟩] (by decide)⟩

theorem get_fallback_full (trains : List Train) (platforms : List Nat) (ts : Nat)
    (msg : String) (hp : platforms ≠ []) :
    ∃ r, get_fallback_solution trains platforms ts msg = .ok r ∧
      r.status = "fallback" ∧ r.error_message = some msg ∧
      r.train_schedule.length = trains.length ∧
      List.Perm (r.train_schedule.map ScheduleEntry.train_id) (trains.map Train.id) := by
  obtain ⟨r, heq, hst, herr, hsched⟩ := get_fallback_solution_ok trains platforms ts msg hp
  refine ⟨r, heq, hst, herr, ?_, ?_⟩
  · rw [hsched, fallbackLoop_length, sortTrains_length]
  · rw [hsched, fallbackLoop_ids]
    exact (sortTrains_perm trains).map Train.id

/-- C4: whenever the exact engine fails — solver status neither optimal nor
feasible, or an exception raised during model construction / solving — the
returned result has status `"fallback"`, exactly one schedule entry per
input train (never an empty schedule), and the failure cause in its error
message. -/
theorem C4_failure_returns_fallback (trains : List Train) (platforms : List Nat)
    (horizon ts : Nat) (hp : platforms ≠ []) :
    (exceptStatus (demo_optimize_train_schedule trains platforms horizon ts .noSolution)
        = some "fallback" ∧
      exceptErrMsg (demo_optimize_train_schedule trains platforms horizon ts .noSolution)
        = some (some "No optimal solution found") ∧
      (exceptSchedule (demo_optimize_train_schedule trains platforms horizon ts
        .noSolution)).length = trains.length ∧
      List.Perm ((exceptSchedule (demo_optimize_train_schedule trains platforms horizon ts
        .noSolution)).map ScheduleEntry.train_id) (trains.map Train.id)) ∧
    ∀ msg,
      exceptStatus (demo_optimize_train_schedule trains platforms horizon ts
        (.exceptionRaised msg)) = some "fallback" ∧
      exceptErrMsg (demo_optimize_train_schedule trains platforms horizon ts
        (.exceptionRaised msg)) = some (some ("Optimization error: " ++ msg)) ∧
      (exceptSchedule (demo_optimize_train_schedule trains platforms horizon ts
        (.exceptionRaised msg))).length = trains.length ∧
      List.Perm ((exceptSchedule (demo_optimize_train_schedule trains platforms horizon ts
        (.exceptionRaised msg))).map ScheduleEntry.train_id) (trains.map Train.id) := by
  constructor
  · obtain ⟨r, heq, hst, herr, hlen, hperm⟩ :=
      get_fallback_full trains platforms ts "No optimal solution found" hp
    have heq' : demo_optimize_train_schedule trains platforms horizon ts .noSolution
        = .ok r := heq
    rw [heq']
    exact ⟨by rw [exceptStatus]; simp [Except.toOption, hst],
           by rw [exceptErrMsg]; simp [Except.toOption, herr],
           by rw [exceptSchedule]; exact hlen,
           by rw [exceptSchedule]; exact hperm⟩
  · intro msg
    obtain ⟨r, heq, hst, herr, hlen, hperm⟩ :=
      get_fallback_full trains platforms ts ("Optimization error: " ++ msg) hp
    have heq' : demo_optimize_train_schedule trains platforms horizon ts
        (.exceptionRaised msg) = .ok r := heq
    rw [heq']
    exact ⟨by rw [exceptStatus]; simp [Except.toOption, hst],
           by rw [exceptErrMsg]; simp [Except.toOption, herr],
           by rw [exceptSchedule]; exact hlen,
           by rw [exceptSchedule]; exact hperm⟩

/-- Witness for C4 at the default inputs, for both failure modes. -/
theorem C4_failure_returns_fallback_witness :
    defaultPlatforms ≠ [] ∧
    exceptStatus (demo_optimize_train_schedule defaultTrains defaultPlatforms 480 360
      .noSolution) = some "fallback" ∧
    (exceptSchedule (demo_optimize_train_schedule defaultTrains defaultPlatforms 480 360
      .noSolution)).length = defaultTrains.length ∧
    exceptErrMsg (demo_optimize_train_schedule defaultTrains defaultPlatforms 480 360
      (.exceptionRaised "solver crashed"))
      = some (some "Optimization error: solver crashed") := by
  have h := C4_failure_returns_fallback defaultTrains defaultPlatforms 480 360 (by decide)
  exact ⟨by decide, h.1.1, h.1.2.2.1, (h.2 "solver crashed").2.1⟩

/-- C9: applying the `maintenance` scenario to a platform set larger than
the prefix size 4 leaves exactly the first 4 platforms, and a second
application leaves those same 4 unchanged — the truncation is idempotent
at the prefix size. -/
theorem C9_maintenance_prefix_idempotent (trains trains2 : List Train)
    (platforms : List Nat) (d d2 : Nat → Nat) (h : 4 < platforms.length) :
    (apply_scenario "maintenance" trains platforms d).2 = platforms.take 4 ∧
    (apply_scenario "maintenance" trains platforms d).2.length = 4 ∧
    (apply_scenario "maintenance" trains2
        (apply_scenario "maintenance" trains platforms d).2 d2).2 =
      (apply_scenario "maintenance" trains platforms d).2 := by
  have hm : ∀ (tr : List Train) (pl : List Nat) (f : Nat → Nat),
      (apply_scenario "maintenance" tr pl f).2 = pl.take 4 := by
    intro tr pl f
    rfl
  refine ⟨hm trains platforms d, ?_, ?_⟩
  · rw [hm]
    rw [List.length_take]
    omega
  · rw [hm, hm, List.take_take]
    norm_num

/-- Witness for C9 at the default 6-platform set. -/
theorem C9_maintenance_prefix_idempotent_witness :
    4 < defaultPlatforms.length ∧
    (apply_scenario "maintenance" defaultTrains defaultPlatforms (fun _ => 0)).2
      = defaultPlatforms.take 4 ∧
    (apply_scenario "maintenance" defaultTrains
        (apply_scenario "maintenance" defaultTrains defaultPlatforms (fun _ => 0)).2
        (fun _ => 0)).2 =
      (apply_scenario "maintenance" defaultTrains defaultPlatforms (fun _ => 0)).2 := by
  have h := C9_maintenance_prefix_idempotent defaultTrains defaultTrains
    defaultPlatforms (fun _ => 0) (fun _ => 0) (by decide)
  exact ⟨by decide, h.1, h.2.2⟩

theorem analyze_pair (e1 e2 : ScheduleEntry) :
    analyze_schedule_conflicts [e1, e2] =
      match checkConflict e1 e2 with
      | some c => [c]
      | none => [] := by
  rcases hc : checkConflict e1 e2 with _ | c <;>
    simp [analyze_schedule_conflicts, List.filterMap_cons, hc]

/-- C6: the auditor reports a conflict for a pair of entries iff they share
a platform and their unbuffered `[start, start + duration)` windows
intersect, with overlap `min(end1, end2) - max(start1, start2)`; on the
spec's concrete case (platform 2, `[10:30,10:40)` vs `[10:35,10:43)`) it
reports exactly one conflict of 5 minutes. -/
theorem C6_auditor_iff_overlap (e1 e2 : ScheduleEntry)
    (h1 : 0 < e1.duration) (h2 : 0 < e2.duration) :
    (analyze_schedule_conflicts [e1, e2] ≠ [] ↔
      e1.platform = e2.platform ∧
        ∃ x, entryStart e1 ≤ x ∧ x < entryStart e1 + e1.duration ∧
          entryStart e2 ≤ x ∧ x < entryStart e2 + e2.duration) ∧
    (∀ c ∈ analyze_schedule_conflicts [e1, e2],
      c.conflict_type = "Platform Conflict" ∧
      c.trains = [e1.train_id, e2.train_id] ∧
      c.platform = e1.platform ∧
      c.overlap_minutes =
        min (entryStart e1 + e1.duration) (entryStart e2 + e2.duration) -
          max (entryStart e1) (entryStart e2)) ∧
    analyze_schedule_conflicts
        [{ train_id := "A", train_type := "Express", priority := 1,
           scheduled_start := ⟨10, 30⟩, scheduled_end := ⟨10, 40⟩, platform := 2,
           delay_minutes := 0, duration := 10 },
         { train_id := "B", train_type := "Express", priority := 2,
           scheduled_start := ⟨10, 35⟩, scheduled_end := ⟨10, 43⟩, platform := 2,
           delay_minutes := 0, duration := 8 }] =
      [{ conflict_type := "Platform Conflict", trains := ["A", "B"], platform := 2,
         overlap_minutes := 5 }] := by
  refine ⟨?_, ?_, by decide⟩
  · rw [analyze_pair]
    unfold checkConflict
    by_cases hp : e1.platform = e2.platform
    · rw [if_pos hp]
      by_cases hord : entryStart e1 + e1.duration ≤ entryStart e2 ∨
          entryStart e2 + e2.duration ≤ entryStart e1
      · rw [if_pos hord]
        constructor
        · intro hne
          exact absurd rfl hne
        · rintro ⟨-, x, hx1, hx2, hx3, hx4⟩
          exfalso
          omega
      · rw [if_neg hord]
        constructor
        · intro _
          refine ⟨hp, max (entryStart e1) (entryStart e2), ?_, ?_, ?_, ?_⟩ <;> omega
        · intro _
          simp
    · rw [if_neg hp]
      constructor
      · intro hne
        exact absurd rfl hne
      · rintro ⟨hp2, -⟩
        exact absurd hp2 hp
  · intro c hc
    rw [analyze_pair] at hc
    unfold checkConflict at hc
    by_cases hp : e1.platform = e2.platform
    · rw [if_pos hp] at hc
      by_cases hord : entryStart e1 + e1.duration ≤ entryStart e2 ∨
          entryStart e2 + e2.duration ≤ entryStart e1
      · rw [if_pos hord] at hc
        have hc2 : c ∈ ([] : List Conflict) := hc
        simp at hc2
      · rw [if_neg hord] at hc
        have hc2 : c ∈
            [({ conflict_type := "Platform Conflict",
                trains := [e1.train_id, e2.train_id], platform := e1.platform,
                overlap_minutes :=
                  min (entryStart e1 + e1.duration) (entryStart e2 + e2.duration) -
                    max (entryStart e1) (entryStart e2) } : Conflict)] := hc
        rcases List.mem_singleton.mp hc2 with rfl
        exact ⟨rfl, rfl, rfl, rfl⟩
    · rw [if_neg hp] at hc
      have hc2 : c ∈ ([] : List Conflict) := hc
      simp at hc2

/-- Witness for C6: the concrete audit case with both durations positive. -/
theorem C6_auditor_iff_overlap_witness :
    analyze_schedule_conflicts
        [{ train_id := "A", train_type := "Express", priority := 1,
           scheduled_start := ⟨10, 30⟩, scheduled_end := ⟨10, 40⟩, platform := 2,
           delay_minutes := 0, duration := 10 },
         { train_id := "B", train_type := "Express", priority := 2,
           scheduled_start := ⟨10, 35⟩, scheduled_end := ⟨10, 43⟩, platform := 2,
           delay_minutes := 0, duration := 8 }] =
      [{ conflict_type := "Platform Conflict", trains := ["A", "B"], platform := 2,
         overlap_minutes := 5 }] :=
  (C6_auditor_iff_overlap
    { train_id := "A", train_type := "Express", priority := 1,
      scheduled_start := ⟨10, 30⟩, scheduled_end := ⟨10, 40⟩, platform := 2,
      delay_minutes := 0, duration := 10 }
    { train_id := "B", train_type := "Express", priority := 2,
      scheduled_start := ⟨10, 35⟩, scheduled_end := ⟨10, 43⟩, platform := 2,
      delay_minutes := 0, duration := 8 }
    (by decide) (by decide)).2.2

/-- C5 counterexample: on the default inputs (the trains and platforms both
optimizers are constructed with), the fallback schedule's assignments
differ from the greedy heuristic engine's — the fallback starts T001 at
06:00 while the heuristic starts it at its preferred 10:30. -/
theorem C5_counterexample_fallback_ne_heuristic :
    (exceptSchedule (get_fallback_solution defaultTrains defaultPlatforms 360
        "No optimal solution found")).map projAssign ≠
      ((simple_optimize_train_schedule defaultTrains defaultPlatforms
        360).train_schedule).map projAssign := by
  decide

/-- C5 amended: the exact engine's failure-path schedule is the simple FIFO
fallback, not the greedy heuristic of §4.3: trains in stable priority
order; the j-th such train gets platform `(j mod platform_count) + 1`, an
absolute start packed sequentially from `time_start` with a 10-minute
buffer after each predecessor, and delay `max(0, start - preferred_time)`. -/
theorem C5_fallback_is_fifo (trains : List Train) (platforms : List Nat)
    (ts : Nat) (msg : String) (hp : platforms ≠ []) :
    ∀ j t, (sortTrains trains)[j]? = some t →
      ∃ e, (exceptSchedule (get_fallback_solution trains platforms ts msg))[j]?
          = some e ∧
        e.train_id = t.id ∧
        e.platform = j % platforms.length + 1 ∧
        entryStart e =
          ts + (((sortTrains trains).take j).map fun u => u.duration + 10).sum ∧
        e.delay_minutes = entryStart e - t.preferred_time := by
  intro j t hj
  have hlen : ¬ platforms.length = 0 := by
    intro hc
    exact hp (List.length_eq_zero.mp hc)
  have hsched : exceptSchedule (get_fallback_solution trains platforms ts msg)
      = fallbackLoop platforms.length (sortTrains trains) 0 ts := by
    unfold get_fallback_solution
    rw [if_neg hlen]
    rfl
  rw [hsched]
  refine ⟨fallbackEntry platforms.length (0 + j)
    (ts + (((sortTrains trains).take j).map fun u => u.duration + 10).sum) t,
    ?_, ?_, ?_, ?_, ?_⟩
  · rw [fallbackLoop_getElem, hj]
    rfl
  · exact (fallbackEntry_fields _ _ _ _).2.2.2.2
  · rw [(fallbackEntry_fields _ _ _ _).2.1, Nat.zero_add]
  · rw [(fallbackEntry_fields _ _ _ _).1]
  · rw [(fallbackEntry_fields _ _ _ _).2.2.2.1, (fallbackEntry_fields _ _ _ _).1]

/-- Witness for the amended C5 at the default inputs (first sorted train). -/
theorem C5_fallback_is_fifo_witness :
    ∃ e, (exceptSchedule (get_fallback_solution defaultTrains defaultPlatforms 360
        "No optimal solution found"))[0]? = some e ∧
      e.train_id = (⟨"T001", "Express", 1, 10, 630⟩ : Train).id ∧
      e.platform = 0 % defaultPlatforms.length + 1 ∧
      entryStart e =
        360 + (((sortTrains defaultTrains).take 0).map fun u => u.duration + 10).sum ∧
      e.delay_minutes = entryStart e -
        (⟨"T001", "Express", 1, 10, 630⟩ : Train).preferred_time :=
  C5_fallback_is_fifo defaultTrains defaultPlatforms 360 "No optimal solution found"
    (by decide) 0 ⟨"T001", "Express", 1, 10, 630⟩ (by decide)

/-- C8 counterexample: in the exact engine, a platform that never appears in
the allocation is simply absent from the utilization report instead of
reporting 0 — here platform 2 (present in the default platform set, unused
by the allocation) has no `"platform_2"` entry. -/
theorem C8_counterexample_demo_omits_unused :
    demo_calculate_platform_utilization defaultTrains 480
        [(1, [⟨"T001", ⟨10, 30⟩, ⟨10, 40⟩⟩])] =
      some [(("platform_1" : String), ((10 : ℚ) / 480) * 100)] ∧
    ¬ ∃ s ∈ [(("platform_1" : String), ((10 : ℚ) / 480) * 100)],
      s.1 = "platform_2" := by
  constructor
  · rfl
  · decide

theorem utilEntries_mem (trains : List Train) (tt : Nat) :
    ∀ (alloc : List (Nat × List AllocEntry)) (u : List (String × ℚ)),
      utilEntries trains tt alloc = some u →
      (∀ q ∈ alloc, ∃ d, sumDurations trains q.2 = some d ∧
        (("platform_" ++ toString q.1 : String), ((d : ℚ) / tt) * 100) ∈ u) ∧
      (∀ s ∈ u, ∃ q ∈ alloc, s.1 = "platform_" ++ toString q.1) := by
  intro alloc
  induction alloc with
  | nil =>
    intro u h
    cases h
    exact ⟨by simp, by simp⟩
  | cons q rest ih =>
    intro u h
    simp only [utilEntries] at h
    rcases hd : sumDurations trains q.2 with _ | d
    · rw [hd] at h
      exact Option.noConfusion h
    · rw [hd] at h
      rcases hrest : utilEntries trains tt rest with _ | r
      · rw [hrest] at h
        exact Option.noConfusion h
      · rw [hrest] at h
        have h2 : some ((("platform_" ++ toString q.1 : String),
            ((d : ℚ) / tt) * 100) :: r) = some u := h
        cases h2
        obtain ⟨ihq, ihs⟩ := ih r hrest
        constructor
        · intro q2 hq2
          rcases List.mem_cons.mp hq2 with rfl | hq2
          · exact ⟨d, hd, List.mem_cons_self _ _⟩
          · obtain ⟨d2, hd2, hmem⟩ := ihq q2 hq2
            exact ⟨d2, hd2, List.mem_cons_of_mem _ hmem⟩
        · intro s hs
          rcases List.mem_cons.mp hs with rfl | hs
          · exact ⟨q, List.mem_cons_self _ _, rfl⟩
          · obtain ⟨q2, hq2, heq⟩ := ihs s hs
            exact ⟨q2, List.mem_cons_of_mem _ hq2, heq⟩

/-- C8 amended: used platforms report `used_time / time_horizon * 100` in
both engines (480 is the heuristic's hard-coded `total_time`), and no other
keys appear than those of the allocation — so the heuristic engine reports
0 for every unused platform of its platform set, while the exact engine
omits unused platforms from the report entirely. -/
theorem C8_utilization_per_engine :
    (∀ (trains : List Train) (horizon : Nat) (alloc : List (Nat × List AllocEntry))
        (u : List (String × ℚ)),
      demo_calculate_platform_utilization trains horizon alloc = some u →
      (∀ q ∈ alloc, ∃ d, sumDurations trains q.2 = some d ∧
        (("platform_" ++ toString q.1 : String), ((d : ℚ) / horizon) * 100) ∈ u) ∧
      (∀ s ∈ u, ∃ q ∈ alloc, s.1 = "platform_" ++ toString q.1)) ∧
    (∀ (trains : List Train) (platforms : List Nat)
        (alloc : List (Nat × List AllocEntry)) (u : List (String × ℚ)),
      simple_calculate_platform_utilization trains platforms alloc = some u →
      (∀ q ∈ alloc, ∃ d, sumDurations trains q.2 = some d ∧
        (("platform_" ++ toString q.1 : String), ((d : ℚ) / 480) * 100) ∈ u) ∧
      (∀ p ∈ platforms, ¬ (alloc.any fun q => q.1 = p) = true →
        (("platform_" ++ toString p : String), (0 : ℚ)) ∈ u)) := by
  constructor
  · intro trains horizon alloc u h
    exact utilEntries_mem trains horizon alloc u h
  · intro trains platforms alloc u h
    unfold simple_calculate_platform_utilization at h
    rcases hused : utilEntries trains 480 alloc with _ | used
    · rw [hused] at h
      exact Option.noConfusion h
    · rw [hused] at h
      have h2 : some (used ++
          ((platforms.filter fun p => ¬ alloc.any (fun q => q.1 = p)).map
            fun p => (("platform_" ++ toString p : String), (0 : ℚ)))) = some u := h
      cases h2
      obtain ⟨ihq, -⟩ := utilEntries_mem trains 480 alloc used hused
      constructor
      · intro q hq
        obtain ⟨d, hd, hmem⟩ := ihq q hq
        exact ⟨d, hd, List.mem_append_left _ hmem⟩
      · intro p hp hnone
        refine List.mem_append_right _ ?_
        refine List.mem_map.mpr ⟨p, ?_, rfl⟩
        rw [List.mem_filter]
        refine ⟨hp, ?_⟩
        simp only [decide_eq_true_eq]
        exact hnone

/-- Witness for the amended C8: a one-platform allocation under the default
trains; the exact engine reports only `platform_1`, the heuristic engine
additionally reports 0 for the five unused platforms. -/
theorem C8_utilization_per_engine_witness :
    ((∀ q ∈ ([(1, [⟨"T001", ⟨10, 30⟩, ⟨10, 40⟩⟩])] : List (Nat × List AllocEntry)),
      ∃ d, sumDurations defaultTrains q.2 = some d ∧
        (("platform_" ++ toString q.1 : String), ((d : ℚ) / 480) * 100) ∈
          [(("platform_1" : String), ((10 : ℚ) / 480) * 100)]) ∧
     (∀ s ∈ [(("platform_1" : String), ((10 : ℚ) / 480) * 100)],
       ∃ q ∈ ([(1, [⟨"T001", ⟨10, 30⟩, ⟨10, 40⟩⟩])] : List (Nat × List AllocEntry)),
         s.1 = "platform_" ++ toString q.1)) ∧
    ((∀ q ∈ ([(1, [⟨"T001", ⟨10, 30⟩, ⟨10, 40⟩⟩])] : List (Nat × List AllocEntry)),
      ∃ d, sumDurations defaultTrains q.2 = some d ∧
        (("platform_" ++ toString q.1 : String), ((d : ℚ) / 480) * 100) ∈
          [(("platform_1" : String), ((10 : ℚ) / 480) * 100),
           (("platform_2" : String), (0 : ℚ)), (("platform_3" : String), (0 : ℚ)),
           (("platform_4" : String), (0 : ℚ)), (("platform_5" : String), (0 : ℚ)),
           (("platform_6" : String), (0 : ℚ))]) ∧
     (∀ p ∈ defaultPlatforms,
       ¬ (([(1, [⟨"T001", ⟨10, 30⟩, ⟨10, 40⟩⟩])] :
          List (Nat × List AllocEntry)).any fun q => q.1 = p) = true →
       (("platform_" ++ toString p : String), (0 : ℚ)) ∈
          [(("platform_1" : String), ((10 : ℚ) / 480) * 100),
           (("platform_2" : String), (0 : ℚ)), (("platform_3" : String), (0 : ℚ)),
           (("platform_4" : String), (0 : ℚ)), (("platform_5" : String), (0 : ℚ)),
           (("platform_6" : String), (0 : ℚ))])) :=
  ⟨C8_utilization_per_engine.1 defaultTrains 480
      [(1, [⟨"T001", ⟨10, 30⟩, ⟨10, 40⟩⟩])]
      [(("platform_1" : String), ((10 : ℚ) / 480) * 100)] (by rfl),
   C8_utilization_per_engine.2 defaultTrains defaultPlatforms
      [(1, [⟨"T001", ⟨10, 30⟩, ⟨10, 40⟩⟩])]
      [(("platform_1" : String), ((10 : ℚ) / 480) * 100),
       (("platform_2" : String), (0 : ℚ)), (("platform_3" : String), (0 : ℚ)),
       (("platform_4" : String), (0 : ℚ)), (("platform_5" : String), (0 : ℚ)),
       (("platform_6" : String), (0 : ℚ))] (by rfl)⟩

/-! ## Lemmas: the greedy loop against the spec description (§4.3) -/

theorem updateUsage_fst (q : Nat × Nat) (p v : Nat) :
    ((if q.1 = p then (q.1, v) else q) : Nat × Nat).1 = q.1 := by
  by_cases h : q.1 = p <;> simp [h]

theorem updateUsage_pairwise_keys {l : List (Nat × Nat)} {p v : Nat}
    (h : l.Pairwise fun a b => a.1 < b.1) :
    (updateUsage l p v).Pairwise fun a b => a.1 < b.1 := by
  unfold updateUsage
  refine List.Pairwise.map _ ?_ h
  intro a b hab
  rw [updateUsage_fst, updateUsage_fst]
  exact hab

/-- Where the platform keys are strictly increasing, Python's
first-occurrence minimum coincides with the spec's lexicographic
(next-free time, platform id) minimum. -/
theorem minBySnd_eq_specSelect (x : Nat × Nat) (l : List (Nat × Nat))
    (hsorted : (x :: l).Pairwise fun a b => a.1 < b.1) :
    minBySnd x l = specSelect x l := by
  induction l generalizing x with
  | nil => rfl
  | cons y ys ih =>
    rw [List.pairwise_cons] at hsorted
    by_cases h : y.2 < x.2
    · have hcond : y.2 < x.2 ∨ (y.2 = x.2 ∧ y.1 < x.1) := Or.inl h
      rw [minBySnd, specSelect, if_pos h, if_pos hcond]
      exact ih y hsorted.2
    · have hxy : x.1 < y.1 := hsorted.1 y (List.mem_cons_self y ys)
      have hcond : ¬ (y.2 < x.2 ∨ (y.2 = x.2 ∧ y.1 < x.1)) := by
        rintro (hc | ⟨-, hc⟩)
        · exact h hc
        · omega
      rw [minBySnd, specSelect, if_neg h, if_neg hcond]
      apply ih x
      rw [List.pairwise_cons]
      exact ⟨fun b hb => hsorted.1 b (List.mem_cons_of_mem y hb),
        (List.pairwise_cons.mp hsorted.2).2⟩

theorem specGreedy_nil_usage (l : List Train) : specGreedy l [] = [] := by
  cases l <;> rfl

theorem projAssign_greedyEntry (ts : Nat) (t : Train) (b : Nat × Nat) :
    projAssign (greedyEntry ts t b) =
      ⟨t.id, b.1, max (max ts t.preferred_time) b.2,
       max (max ts t.preferred_time) b.2 - t.preferred_time⟩ := by
  unfold projAssign greedyEntry
  simp [time_to_minutes_minutesToTimeStr]

/-- The code's greedy loop computes, entry for entry, the assignments the
spec's algorithm description prescribes, provided the platform keys are
strictly increasing and every next-free time is at least `time_start`. -/
theorem greedyRun_spec (ts : Nat) (l : List Train) (acc : GreedyAcc)
    (hkeys : acc.usage.Pairwise fun a b => a.1 < b.1)
    (hvals : ∀ q ∈ acc.usage, ts ≤ q.2) :
    ∀ acc', greedyRun ts l acc = .ok acc' →
      acc'.schedule.map projAssign =
        acc.schedule.map projAssign ++ specGreedy l acc.usage := by
  induction l generalizing acc with
  | nil =>
    intro acc' h
    simp only [greedyRun] at h
    cases h
    simp [specGreedy]
  | cons t rest ih =>
    intro acc' h
    rcases hu : acc.usage with _ | ⟨u, us⟩
    · simp only [greedyRun, hu, argminUsage] at h
      exact Except.noConfusion h
    · rw [greedyRun_cons ts t rest acc u us hu] at h
      have hbs : minBySnd u us = specSelect u us :=
        minBySnd_eq_specSelect u us (hu ▸ hkeys)
      have hbmem : minBySnd u us ∈ acc.usage := hu ▸ minBySnd_mem u us
      have hbts : ts ≤ (minBySnd u us).2 := hvals _ hbmem
      have hstart : max (max ts t.preferred_time) (minBySnd u us).2 =
          max t.preferred_time (minBySnd u us).2 := by omega
      have hkeys2 : (updateUsage acc.usage (minBySnd u us).1
          (max (max ts t.preferred_time) (minBySnd u us).2 + t.duration + 5)).Pairwise
          fun a b => a.1 < b.1 := updateUsage_pairwise_keys hkeys
      have hvals2 : ∀ q ∈ updateUsage acc.usage (minBySnd u us).1
          (max (max ts t.preferred_time) (minBySnd u us).2 + t.duration + 5),
          ts ≤ q.2 := by
        intro q' hq'
        rcases mem_updateUsage hq' with ⟨q, hq, hcase | hcase⟩
        · rw [hcase.2]
          omega
        · rw [hcase.2]
          exact hvals q hq
      have hrec := ih
        ⟨acc.schedule ++ [greedyEntry ts t (minBySnd u us)],
         updateUsage acc.usage (minBySnd u us).1
           (max (max ts t.preferred_time) (minBySnd u us).2 + t.duration + 5),
         acc.total_delay +
           (max (max ts t.preferred_time) (minBySnd u us).2 - t.preferred_time)⟩
        hkeys2 hvals2 acc' h
      rw [hrec, hu]
      rw [List.map_append, List.map_cons, List.map_nil]
      rw [projAssign_greedyEntry, hstart, hbs]
      rw [specGreedy]
      simp

/-- C2: the greedy heuristic processes the trains stably sorted ascending
by priority (the sort is a permutation, ordered by priority, preserving
input order within each priority class), keeps per-platform next-free times
initialized to `time_start`, and assigns each train exactly as the spec
describes: earliest-free platform with lowest-id tie-break,
`start = max(preferred_absolute_time, platform_next_free)`,
`delay = max(0, start - preferred_absolute_time)`, next-free advanced to
`start + duration + 5`.  (The program's platform lists are always strictly
ascending, which the hypothesis records.) -/
theorem C2_greedy_matches_spec (trains : List Train) (platforms : List Nat)
    (ts : Nat) (hplat : platforms.Pairwise (· < ·)) :
    ((sortTrains trains).Pairwise fun a b => a.priority ≤ b.priority) ∧
    List.Perm (sortTrains trains) trains ∧
    (∀ k, (sortTrains trains).filter (fun u => u.priority == k)
      = trains.filter (fun u => u.priority == k)) ∧
    ((simple_optimize_train_schedule trains platforms ts).train_schedule).map projAssign
      = specSchedule trains platforms ts := by
  refine ⟨sortTrains_pairwise trains, sortTrains_perm trains,
    sortTrains_filter trains, ?_⟩
  unfold simple_optimize_train_schedule
  rcases hres : simpleCore trains platforms ts with e | r
  · by_cases htr : trains = []
    · subst htr
      simp [specSchedule, sortTrains, specGreedy]
    · by_cases hpl : platforms = []
      · subst hpl
        simp [specSchedule, specGreedy_nil_usage]
      · obtain ⟨r, hok, -⟩ := simpleCore_ok trains platforms ts htr hpl
        rw [hok] at hres
        exact Except.noConfusion hres
  · obtain ⟨acc', hrun, hsched⟩ := simpleCore_schedule trains platforms ts r hres
    have hkeys : (platforms.map fun p => (p, ts)).Pairwise
        (fun a b => a.1 < b.1) := by
      refine List.Pairwise.map _ ?_ hplat
      intro a b hab
      exact hab
    have hvals : ∀ q ∈ platforms.map fun p => (p, ts), ts ≤ q.2 := by
      intro q hq
      rcases List.mem_map.mp hq with ⟨p, -, rfl⟩
      exact Nat.le_refl ts
    have hspec := greedyRun_spec ts (sortTrains trains)
      ⟨[], platforms.map fun p => (p, ts), 0⟩ hkeys hvals acc' hrun
    have hsched2 : r.train_schedule.map projAssign = acc'.schedule.map projAssign := by
      rw [hsched]
    rw [hsched2, hspec]
    simp [specSchedule]

/-- Witness for C2 at the default inputs (strictly ascending platforms). -/
theorem C2_greedy_matches_spec_witness :
    defaultPlatforms.Pairwise (· < ·) ∧
    ((simple_optimize_train_schedule defaultTrains defaultPlatforms
        360).train_schedule).map projAssign
      = specSchedule defaultTrains defaultPlatforms 360 :=
  ⟨by decide,
   (C2_greedy_matches_spec defaultTrains defaultPlatforms 360 (by decide)).2.2.2⟩
